import Mathlib

namespace WalletRepo

/-- Transaction.TransactionType in wallets/models/transaction.py. -/
inductive TxnType
  | deposit
  | withdrawal
deriving DecidableEq, Repr

/-- Transaction.Status in wallets/models/transaction.py. -/
inductive Status
  | pending
  | processing
  | completed
  | failed
deriving DecidableEq, Repr

/-- Shape of the third_party_response JSON blob: either the literal
insufficient-balance error written by WithdrawalService.execute, or an opaque
payload returned by the bank client (wallets/utils/bank.py), abstracted by a
Nat tag. -/
inductive TPResponse
  | insufficient
  | bank (payload : Nat)
deriving DecidableEq, Repr

/-- Result dict of request_third_party_deposit (wallets/utils/bank.py): a
success flag plus the response payload that the caller persists. -/
structure BankResult where
  success : Bool
  payload : Nat
deriving DecidableEq, Repr

/-- Wallet row (wallets/models/wallet.py): surrogate pk, external uuid
(abstracted to Nat), and a signed big-integer balance. -/
structure Wallet where
  pk : Nat
  uuid : Nat
  balance : Int
deriving DecidableEq, Repr

/-- Transaction row (wallets/models/transaction.py). -/
structure Txn where
  id : Nat
  walletPk : Nat
  amount : Int
  ttype : TxnType
  status : Status
  scheduledFor : Option Int
  executedAt : Option Int
  thirdPartyResponse : Option TPResponse
  retryCount : Nat
  idempotencyKey : Option Nat
deriving DecidableEq, Repr

/-- Committed database state: wallet rows, transaction rows (head = newest,
matching the default -created_at ordering that QuerySet.first observes), and
the next transaction surrogate id. -/
structure DB where
  wallets : List Wallet
  txns : List Txn
  nextTxnId : Nat
deriving DecidableEq, Repr

/-- Errors surfaced by the service layer: ValueError, DoesNotExist, and the
IntegrityError raised on an idempotency-key unique violation. An error from a
body wrapped in transaction.atomic rolls the enclosing transaction back, so an
errored call commits no state change. -/
inductive Err
  | invalidArgument
  | notFound
  | conflict
deriving DecidableEq, Repr

/-- QuerySet.get semantics: succeeds exactly when one row matches. -/
def getUnique {α : Type} (p : α → Bool) (l : List α) : Option α :=
  match l.filter p with
  | [a] => some a
  | _ => none

/-- filter predicate for Transaction.objects.filter(idempotency_key=k). -/
def byKey (k : Nat) (t : Txn) : Bool :=
  decide (t.idempotencyKey = some k)

/-- filter predicate for Wallet.objects.get(uuid=u). -/
def byUuid (u : Nat) (w : Wallet) : Bool :=
  decide (w.uuid = u)

/-- filter predicate for Wallet.objects.get(pk=p). -/
def byPk (p : Nat) (w : Wallet) : Bool :=
  decide (w.pk = p)

/-- filter predicate for
Transaction.objects.get(id=i, status__in=[PENDING, FAILED]) used at the top of
WithdrawalService.execute. Note: the source filters on status only, never on
retry_count. -/
def byIdInEntryStatuses (i : Nat) (t : Txn) : Bool :=
  decide (t.id = i ∧ (t.status = Status.pending ∨ t.status = Status.failed))

/-- Wallet.objects.filter(pk=pk).update(balance=F(balance) + a). -/
def creditBalance (ws : List Wallet) (pk : Nat) (a : Int) : List Wallet :=
  ws.map (fun w => if w.pk = pk then { w with balance := w.balance + a } else w)

/-- Wallet.objects.filter(pk=pk).update(balance=F(balance) - a). -/
def debitBalance (ws : List Wallet) (pk : Nat) (a : Int) : List Wallet :=
  ws.map (fun w => if w.pk = pk then { w with balance := w.balance - a } else w)

/-- tx.save(...) on an existing row: replace the stored row whose id matches
the in-memory record being saved. -/
def updateTxn (txns : List Txn) (t : Txn) : List Txn :=
  txns.map (fun x => if x.id = t.id then t else x)

/-- Does a stored transaction already carry this idempotency key?  Models the
unique constraint on Transaction.idempotency_key. -/
def keyTaken (txns : List Txn) (k : Option Nat) : Bool :=
  match k with
  | none => false
  | some k' => txns.any (byKey k')

/-- Transaction.objects.create: inserts a fresh row, enforcing the unique
constraint on idempotency_key (IntegrityError modelled as Err.conflict). -/
def createTxn (db : DB) (walletPk : Nat) (amount : Int) (ty : TxnType)
    (st : Status) (sf : Option Int) (ea : Option Int) (resp : Option TPResponse)
    (key : Option Nat) : Except Err (DB × Txn) :=
  if keyTaken db.txns key then .error .conflict
  else
    let t : Txn :=
      { id := db.nextTxnId
        walletPk := walletPk
        amount := amount
        ttype := ty
        status := st
        scheduledFor := sf
        executedAt := ea
        thirdPartyResponse := resp
        retryCount := 0
        idempotencyKey := key }
    .ok ({ db with txns := t :: db.txns, nextTxnId := db.nextTxnId + 1 }, t)

/-- WalletService.deposit (wallets/services/wallet.py), one atomic database
transaction.  Validation precedes the idempotency pre-check; the pre-check
returns any stored transaction with the given key unchanged (the
parameter-mismatch branch in the source only logs a warning and falls
through); otherwise the wallet row is locked, credited with a single
F-expression update, and a COMPLETED deposit row is inserted. -/
def deposit (db : DB) (walletUuid : Nat) (amount : Int)
    (idempotencyKey : Option Nat) (now : Int) : Except Err (DB × Txn) :=
  if amount ≤ 0 then .error .invalidArgument
  else
    match idempotencyKey.bind (fun k => db.txns.find? (byKey k)) with
    | some existing => .ok (db, existing)
    | none =>
      match getUnique (byUuid walletUuid) db.wallets with
      | none => .error .notFound
      | some wallet =>
        createTxn { db with wallets := creditBalance db.wallets wallet.pk amount }
          wallet.pk amount TxnType.deposit Status.completed none (some now) none
          idempotencyKey

/-- WalletService.deposit as observed when a concurrent writer commits the
rows in concurrent between this call's pre-lock idempotency lookup and its
insert: the lookup reads the earlier snapshot db.txns, while the insert's
unique-constraint check sees the concurrent rows as well.  The source has no
try/except around the insert, so a unique violation propagates: this call's
own writes (the balance credit) are rolled back by transaction.atomic, while
the concurrent writer's commit stays.  Returns the final committed state and
the call's outcome. -/
def depositRaced (db : DB) (concurrent : List Txn) (walletUuid : Nat)
    (amount : Int) (idempotencyKey : Option Nat) (now : Int) :
    DB × Except Err Txn :=
  let dbC : DB := { db with txns := concurrent ++ db.txns }
  if amount ≤ 0 then (dbC, .error .invalidArgument)
  else
    match idempotencyKey.bind (fun k => db.txns.find? (byKey k)) with
    | some existing => (dbC, .ok existing)
    | none =>
      match getUnique (byUuid walletUuid) dbC.wallets with
      | none => (dbC, .error .notFound)
      | some wallet =>
        match createTxn
            { dbC with wallets := creditBalance dbC.wallets wallet.pk amount }
            wallet.pk amount TxnType.deposit Status.completed none (some now)
            none idempotencyKey with
        | .ok (db₂, t) => (db₂, .ok t)
        | .error e => (dbC, .error e)

/-- WithdrawalService.schedule (wallets/services/withdrawal.py), one atomic
database transaction: validate amount and future scheduling time, honour the
idempotency pre-check, then insert a PENDING withdrawal row.  The balance is
neither consulted nor modified. -/
def schedule (db : DB) (walletUuid : Nat) (amount : Int) (scheduledFor : Int)
    (idempotencyKey : Option Nat) (now : Int) : Except Err (DB × Txn) :=
  if amount ≤ 0 then .error .invalidArgument
  else if scheduledFor ≤ now then .error .invalidArgument
  else
    match idempotencyKey.bind (fun k => db.txns.find? (byKey k)) with
    | some existing => .ok (db, existing)
    | none =>
      match getUnique (byUuid walletUuid) db.wallets with
      | none => .error .notFound
      | some wallet =>
        createTxn db wallet.pk amount TxnType.withdrawal Status.pending
          (some scheduledFor) none none idempotencyKey

/-- Result of WithdrawalService.execute: the committed database state, the
returned transaction record, and whether the third-party bank client was
invoked during the call. -/
structure ExecOut where
  db : DB
  tx : Txn
  bankCalled : Bool
deriving DecidableEq, Repr

/-- WithdrawalService.execute (wallets/services/withdrawal.py), one atomic
database transaction.  The bank outcome for the (at most one) bank call made
by this run is supplied as the argument bank.  An .error result means the
exception propagated out of transaction.atomic, so nothing was committed. -/
def execute (db : DB) (transactionId : Nat) (bank : BankResult) (now : Int) :
    Except Err ExecOut :=
  match getUnique (byIdInEntryStatuses transactionId) db.txns with
  | none => .error .notFound
  | some tx =>
    let tx₁ := { tx with status := Status.processing }
    let db₁ := { db with txns := updateTxn db.txns tx₁ }
    match getUnique (byPk tx₁.walletPk) db₁.wallets with
    | none => .error .notFound
    | some wallet =>
      if wallet.balance < tx₁.amount then
        let tx₂ := { tx₁ with
          status := Status.failed
          executedAt := some now
          thirdPartyResponse := some TPResponse.insufficient }
        .ok ⟨{ db₁ with txns := updateTxn db₁.txns tx₂ }, tx₂, false⟩
      else
        let db₂ := { db₁ with
          wallets := debitBalance db₁.wallets wallet.pk tx₁.amount }
        if bank.success then
          let tx₂ := { tx₁ with
            status := Status.completed
            executedAt := some now
            thirdPartyResponse := some (TPResponse.bank bank.payload) }
          .ok ⟨{ db₂ with txns := updateTxn db₂.txns tx₂ }, tx₂, true⟩
        else
          let db₃ := { db₂ with
            wallets := creditBalance db₂.wallets wallet.pk tx₁.amount }
          let tx₂ := { tx₁ with
            status := Status.failed
            executedAt := some now
            retryCount := tx₁.retryCount + 1
            thirdPartyResponse := some (TPResponse.bank bank.payload) }
          .ok ⟨{ db₃ with txns := updateTxn db₃.txns tx₂ }, tx₂, true⟩

/-- One service call together with its arguments, as issued by the HTTP
adapter or by the executor worker (wallets/views, wallets/tasks.py). -/
inductive Op
  | depositOp (walletUuid : Nat) (amount : Int) (key : Option Nat) (now : Int)
  | scheduleOp (walletUuid : Nat) (amount : Int) (scheduledFor : Int)
      (key : Option Nat) (now : Int)
  | executeOp (txId : Nat) (bank : BankResult) (now : Int)

/-- Commit semantics of one service call: on success the new state is
committed; on an exception transaction.atomic rolls everything back, so the
committed state is unchanged. -/
def applyOp (db : DB) : Op → DB
  | .depositOp u a k n =>
    match deposit db u a k n with
    | .ok (db', _) => db'
    | .error _ => db
  | .scheduleOp u a sf k n =>
    match schedule db u a sf k n with
    | .ok (db', _) => db'
    | .error _ => db
  | .executeOp i b n =>
    match execute db i b n with
    | .ok o => o.db
    | .error _ => db

/-- Initial committed state: freshly created wallets (Wallet.balance defaults
to 0 in wallets/models/wallet.py) and no transactions. -/
def initDB (ws : List Wallet) : DB :=
  ⟨ws, [], 0⟩

/-- Committed state after running a sequence of service calls from freshly
created wallets. -/
def run (ws : List Wallet) (ops : List Op) : DB :=
  ops.foldl applyOp (initDB ws)

/-- WITHDRAWAL_MAX_RETRIES default (wallets/tasks.py). -/
def MAX_RETRIES : Nat := 3

/-- Transaction.get_failed_retryable_withdrawals (wallets/models/transaction.py):
the retry dispatcher's eligibility query. -/
def getFailedRetryableWithdrawals (txns : List Txn) (maxRetries : Nat) :
    List Txn :=
  txns.filter (fun t => decide (t.ttype = TxnType.withdrawal ∧
    t.status = Status.failed ∧ t.retryCount < maxRetries))

/-- Spec quantity: filter keeping the Completed transactions of one kind that
belong to the wallet with the given pk. -/
def isCompletedOf (ty : TxnType) (pk : Nat) (t : Txn) : Bool :=
  decide (t.walletPk = pk ∧ t.ttype = ty ∧ t.status = Status.completed)

/-- Spec quantity: sum of the amounts of a wallet's Completed transactions of
one kind, as in the spec's ledger invariant. -/
def completedSum (txns : List Txn) (ty : TxnType) (pk : Nat) : Int :=
  ((txns.filter (isCompletedOf ty pk)).map Txn.amount).sum

/-- Contribution of a single transaction row to completedSum. -/
def contrib (ty : TxnType) (pk : Nat) (t : Txn) : Int :=
  if isCompletedOf ty pk t then t.amount else 0

lemma completedSum_nil (ty : TxnType) (pk : Nat) : completedSum [] ty pk = 0 :=
  rfl

lemma completedSum_cons (t : Txn) (l : List Txn) (ty : TxnType) (pk : Nat) :
    completedSum (t :: l) ty pk = contrib ty pk t + completedSum l ty pk := by
  by_cases h : isCompletedOf ty pk t
  · simp [completedSum, contrib, List.filter_cons, h]
  · simp [completedSum, contrib, List.filter_cons, h]

lemma getUnique_spec {α : Type} (p : α → Bool) (l : List α) (a : α)
    (h : getUnique p l = some a) :
    a ∈ l ∧ p a = true ∧ ∀ x ∈ l, p x = true → x = a := by
  unfold getUnique at h
  split at h
  next b heq =>
    obtain rfl : a = b := by injection h with h₂; exact h₂.symm
    have ha : a ∈ l.filter p := by rw [heq]; exact List.mem_singleton_self a
    obtain ⟨hmem, hp⟩ := List.mem_filter.mp ha
    refine ⟨hmem, hp, ?_⟩
    intro x hx hpx
    have : x ∈ l.filter p := List.mem_filter.mpr ⟨hx, hpx⟩
    rw [heq] at this
    exact List.mem_singleton.mp this
  next => exact absurd h (by simp)

lemma mem_updateTxn (l : List Txn) (t y : Txn) (hy : y ∈ updateTxn l t) :
    y = t ∨ y ∈ l := by
  unfold updateTxn at hy
  obtain ⟨x, hx, hfx⟩ := List.mem_map.mp hy
  by_cases h : x.id = t.id
  · left; rw [← hfx, if_pos h]
  · right; rw [← hfx, if_neg h]; exact hx

lemma updateTxn_map_id (l : List Txn) (t : Txn) :
    (updateTxn l t).map Txn.id = l.map Txn.id := by
  unfold updateTxn
  rw [List.map_map]
  apply List.map_congr_left
  intro x _
  by_cases h : x.id = t.id
  · simp [h]
  · simp [h]

lemma updateTxn_updateTxn (l : List Txn) (t₁ t₂ : Txn) (h : t₂.id = t₁.id) :
    updateTxn (updateTxn l t₁) t₂ = updateTxn l t₂ := by
  unfold updateTxn
  rw [List.map_map]
  apply List.map_congr_left
  intro x _
  by_cases hx : x.id = t₁.id
  · simp [hx, h]
  · have hx₂ : ¬ x.id = t₂.id := by rw [h]; exact hx
    simp [hx, hx₂]

lemma updateTxn_eq_of_no_match (l : List Txn) (t : Txn)
    (h : ∀ x ∈ l, x.id ≠ t.id) : updateTxn l t = l := by
  unfold updateTxn
  induction l with
  | nil => rfl
  | cons x xs ih =>
    rw [List.map_cons, if_neg (h x (List.mem_cons_self x xs))]
    rw [ih (fun y hy => h y (List.mem_cons_of_mem x hy))]

/-- Replacing the unique row with a given id shifts completedSum by the
difference of the old and new contributions. -/
lemma completedSum_updateTxn (l : List Txn) (tx tx' : Txn) (ty : TxnType)
    (pk : Nat) (hn : (l.map Txn.id).Nodup) (hmem : tx ∈ l)
    (hid : tx'.id = tx.id) :
    completedSum (updateTxn l tx') ty pk
      = completedSum l ty pk + contrib ty pk tx' - contrib ty pk tx := by
  induction l with
  | nil => cases hmem
  | cons x xs ih =>
    rw [List.map_cons, List.nodup_cons] at hn
    obtain ⟨hxid, hxs⟩ := hn
    rcases List.mem_cons.mp hmem with rfl | hmem'
    · have hxs_ne : ∀ y ∈ xs, y.id ≠ tx'.id := by
        intro y hy hne
        exact hxid (by rw [← hid, ← hne]; exact List.mem_map_of_mem Txn.id hy)
      have hhd : updateTxn (tx :: xs) tx' = tx' :: xs := by
        unfold updateTxn
        rw [List.map_cons, if_pos hid.symm]
        have := updateTxn_eq_of_no_match xs tx' hxs_ne
        unfold updateTxn at this
        rw [this]
      rw [hhd, completedSum_cons, completedSum_cons]
      ring
    · have hxne : ¬ x.id = tx'.id := by
        intro hcontra
        exact hxid (by rw [hcontra, hid]; exact List.mem_map_of_mem Txn.id hmem')
      have hhd : updateTxn (x :: xs) tx' = x :: updateTxn xs tx' := by
        unfold updateTxn
        rw [List.map_cons, if_neg hxne]
      rw [hhd, completedSum_cons, completedSum_cons, ih hxs hmem']
      ring

/-- Two rows of a list whose mapped ids are nodup and which share an id are
the same row. -/
lemma eq_of_mem_of_nodup_ids (l : List Txn) (x y : Txn)
    (hn : (l.map Txn.id).Nodup) (hx : x ∈ l) (hy : y ∈ l)
    (hid : x.id = y.id) : x = y := by
  induction l with
  | nil => cases hx
  | cons a as ih =>
    rw [List.map_cons, List.nodup_cons] at hn
    obtain ⟨haid, has⟩ := hn
    rcases List.mem_cons.mp hx with rfl | hx'
    · rcases List.mem_cons.mp hy with rfl | hy'
      · rfl
      · exact absurd (by rw [hid]; exact List.mem_map_of_mem Txn.id hy') haid
    · rcases List.mem_cons.mp hy with rfl | hy'
      · exact absurd (by rw [← hid]; exact List.mem_map_of_mem Txn.id hx') haid
      · exact ih has hx' hy'

lemma creditBalance_debitBalance (ws : List Wallet) (pk : Nat) (a : Int) :
    creditBalance (debitBalance ws pk a) pk a = ws := by
  unfold creditBalance debitBalance
  rw [List.map_map]
  have : ∀ w ∈ ws,
      ((fun w => if w.pk = pk then { w with balance := w.balance + a } else w) ∘
        (fun w => if w.pk = pk then { w with balance := w.balance - a } else w))
        w = id w := by
    intro w _
    obtain ⟨wpk, wu, wb⟩ := w
    by_cases h : wpk = pk
    · simp [h, Int.sub_add_cancel]
    · simp [h]
  rw [List.map_congr_left this, List.map_id]

lemma mem_creditBalance (ws : List Wallet) (pk : Nat) (a : Int) (w' : Wallet)
    (h : w' ∈ creditBalance ws pk a) :
    ∃ w ∈ ws, w' = if w.pk = pk then { w with balance := w.balance + a }
      else w := by
  unfold creditBalance at h
  obtain ⟨w, hw, hfw⟩ := List.mem_map.mp h
  exact ⟨w, hw, hfw.symm⟩

lemma mem_debitBalance (ws : List Wallet) (pk : Nat) (a : Int) (w' : Wallet)
    (h : w' ∈ debitBalance ws pk a) :
    ∃ w ∈ ws, w' = if w.pk = pk then { w with balance := w.balance - a }
      else w := by
  unfold debitBalance at h
  obtain ⟨w, hw, hfw⟩ := List.mem_map.mp h
  exact ⟨w, hw, hfw.symm⟩

/-- Ledger invariant of the spec: every wallet's balance is the sum of its
Completed deposits minus the sum of its Completed withdrawals. -/
def BalancesMatch (db : DB) : Prop :=
  ∀ w ∈ db.wallets, w.balance =
    completedSum db.txns TxnType.deposit w.pk
      - completedSum db.txns TxnType.withdrawal w.pk

/-- Non-negativity invariant of the spec: balance of every wallet is ≥ 0 at
commit boundaries. -/
def BalancesNonneg (db : DB) : Prop :=
  ∀ w ∈ db.wallets, 0 ≤ w.balance

/-- Surrogate ids of transaction rows are pairwise distinct. -/
def IdsNodup (db : DB) : Prop :=
  (db.txns.map Txn.id).Nodup

/-- Every stored transaction id is below the id counter. -/
def IdsBounded (db : DB) : Prop :=
  ∀ t ∈ db.txns, t.id < db.nextTxnId

/-- Deposit rows are created exclusively with status COMPLETED and no service
call ever moves them out of it. -/
def DepositsCompleted (db : DB) : Prop :=
  ∀ t ∈ db.txns, t.ttype = TxnType.deposit → t.status = Status.completed

/-- Conjunction of all committed-state invariants used in the inductive
argument. -/
def Inv (db : DB) : Prop :=
  BalancesMatch db ∧ BalancesNonneg db ∧ IdsNodup db ∧ IdsBounded db ∧
    DepositsCompleted db

lemma inv_deposit (db db' : DB) (u : Nat) (a : Int) (k : Option Nat) (now : Int)
    (t : Txn) (hInv : Inv db) (h : deposit db u a k now = .ok (db', t)) :
    Inv db' := by
  obtain ⟨hbm, hnn, hnd, hbd, hdc⟩ := hInv
  unfold deposit at h
  split at h
  · exact Except.noConfusion h
  next ha =>
    split at h
    next existing heq =>
      simp only [Except.ok.injEq, Prod.mk.injEq] at h
      obtain ⟨rfl, rfl⟩ := h
      exact ⟨hbm, hnn, hnd, hbd, hdc⟩
    next hkmiss =>
      split at h
      · exact Except.noConfusion h
      next wallet heqW =>
        unfold createTxn at h
        split at h
        · exact Except.noConfusion h
        next hktaken =>
          simp only [Except.ok.injEq, Prod.mk.injEq] at h
          obtain ⟨rfl, rfl⟩ := h
          have hapos : 0 < a := by omega
          refine ⟨?_, ?_, ?_, ?_, ?_⟩
          · intro w' hw'
            obtain ⟨w, hw, hw'eq⟩ := mem_creditBalance _ _ _ _ hw'
            have hold := hbm w hw
            by_cases hpk : w.pk = wallet.pk
            · have hpk' : w'.pk = w.pk := by rw [hw'eq, if_pos hpk]
              have hbal' : w'.balance = w.balance + a := by
                rw [hw'eq, if_pos hpk]
              have hc1 : contrib TxnType.deposit w.pk
                  { id := db.nextTxnId, walletPk := wallet.pk, amount := a,
                    ttype := TxnType.deposit, status := Status.completed,
                    scheduledFor := none, executedAt := some now,
                    thirdPartyResponse := none, retryCount := 0,
                    idempotencyKey := k } = a := by
                simp [contrib, isCompletedOf, hpk]
              have hc2 : contrib TxnType.withdrawal w.pk
                  { id := db.nextTxnId, walletPk := wallet.pk, amount := a,
                    ttype := TxnType.deposit, status := Status.completed,
                    scheduledFor := none, executedAt := some now,
                    thirdPartyResponse := none, retryCount := 0,
                    idempotencyKey := k } = 0 := by
                simp [contrib, isCompletedOf]
              rw [hpk', hbal', completedSum_cons, completedSum_cons, hc1, hc2]
              omega
            · have hpk' : w'.pk = w.pk := by rw [hw'eq, if_neg hpk]
              have hbal' : w'.balance = w.balance := by rw [hw'eq, if_neg hpk]
              have hc1 : contrib TxnType.deposit w.pk
                  { id := db.nextTxnId, walletPk := wallet.pk, amount := a,
                    ttype := TxnType.deposit, status := Status.completed,
                    scheduledFor := none, executedAt := some now,
                    thirdPartyResponse := none, retryCount := 0,
                    idempotencyKey := k } = 0 := by
                simp [contrib, isCompletedOf]
                intro hcontra
                exact absurd hcontra.symm hpk
              have hc2 : contrib TxnType.withdrawal w.pk
                  { id := db.nextTxnId, walletPk := wallet.pk, amount := a,
                    ttype := TxnType.deposit, status := Status.completed,
                    scheduledFor := none, executedAt := some now,
                    thirdPartyResponse := none, retryCount := 0,
                    idempotencyKey := k } = 0 := by
                simp [contrib, isCompletedOf]
              rw [hpk', hbal', completedSum_cons, completedSum_cons, hc1, hc2]
              omega
          · intro w' hw'
            obtain ⟨w, hw, hw'eq⟩ := mem_creditBalance _ _ _ _ hw'
            have hold := hnn w hw
            by_cases hpk : w.pk = wallet.pk
            · have hbal' : w'.balance = w.balance + a := by
                rw [hw'eq, if_pos hpk]
              omega
            · have hbal' : w'.balance = w.balance := by rw [hw'eq, if_neg hpk]
              omega
          · simp only [IdsNodup, List.map_cons, List.nodup_cons]
            refine ⟨?_, hnd⟩
            intro hmem
            obtain ⟨x, hx, hxid⟩ := List.mem_map.mp hmem
            have := hbd x hx
            omega
          · intro x hx
            show x.id < db.nextTxnId + 1
            rcases List.mem_cons.mp hx with rfl | hx'
            · exact Nat.lt_succ_self _
            · have := hbd x hx'
              omega
          · intro x hx
            rcases List.mem_cons.mp hx with rfl | hx'
            · intro _; rfl
            · exact hdc x hx'

lemma inv_schedule (db db' : DB) (u : Nat) (a sf : Int) (k : Option Nat)
    (now : Int) (t : Txn) (hInv : Inv db)
    (h : schedule db u a sf k now = .ok (db', t)) : Inv db' := by
  obtain ⟨hbm, hnn, hnd, hbd, hdc⟩ := hInv
  unfold schedule at h
  split at h
  · exact Except.noConfusion h
  split at h
  · exact Except.noConfusion h
  split at h
  next existing heq =>
    simp only [Except.ok.injEq, Prod.mk.injEq] at h
    obtain ⟨rfl, rfl⟩ := h
    exact ⟨hbm, hnn, hnd, hbd, hdc⟩
  next hkmiss =>
    split at h
    · exact Except.noConfusion h
    next wallet heqW =>
      unfold createTxn at h
      split at h
      · exact Except.noConfusion h
      next hktaken =>
        simp only [Except.ok.injEq, Prod.mk.injEq] at h
        obtain ⟨rfl, rfl⟩ := h
        refine ⟨?_, hnn, ?_, ?_, ?_⟩
        · intro w hw
          have hc1 : contrib TxnType.deposit w.pk
              { id := db.nextTxnId, walletPk := wallet.pk, amount := a,
                ttype := TxnType.withdrawal, status := Status.pending,
                scheduledFor := some sf, executedAt := none,
                thirdPartyResponse := none, retryCount := 0,
                idempotencyKey := k } = 0 := by
            simp [contrib, isCompletedOf]
          have hc2 : contrib TxnType.withdrawal w.pk
              { id := db.nextTxnId, walletPk := wallet.pk, amount := a,
                ttype := TxnType.withdrawal, status := Status.pending,
                scheduledFor := some sf, executedAt := none,
                thirdPartyResponse := none, retryCount := 0,
                idempotencyKey := k } = 0 := by
            simp [contrib, isCompletedOf]
          have := hbm w hw
          rw [completedSum_cons, completedSum_cons, hc1, hc2]
          omega
        · simp only [IdsNodup, List.map_cons, List.nodup_cons]
          refine ⟨?_, hnd⟩
          intro hmem
          obtain ⟨x, hx, hxid⟩ := List.mem_map.mp hmem
          have := hbd x hx
          omega
        · intro x hx
          show x.id < db.nextTxnId + 1
          rcases List.mem_cons.mp hx with rfl | hx'
          · exact Nat.lt_succ_self _
          · have := hbd x hx'
            omega
        · intro x hx
          rcases List.mem_cons.mp hx with rfl | hx'
          · intro hcontra
            exact TxnType.noConfusion hcontra
          · exact hdc x hx'

lemma inv_mk (ws : List Wallet) (ts : List Txn) (n : Nat)
    (h₁ : ∀ w ∈ ws, w.balance = completedSum ts TxnType.deposit w.pk
      - completedSum ts TxnType.withdrawal w.pk)
    (h₂ : ∀ w ∈ ws, 0 ≤ w.balance)
    (h₃ : (ts.map Txn.id).Nodup)
    (h₄ : ∀ t ∈ ts, t.id < n)
    (h₅ : ∀ t ∈ ts, t.ttype = TxnType.deposit → t.status = Status.completed) :
    Inv (DB.mk ws ts n) :=
  ⟨h₁, h₂, h₃, h₄, h₅⟩

lemma inv_execute (db : DB) (txId : Nat) (bank : BankResult) (now : Int)
    (out : ExecOut) (hInv : Inv db) (h : execute db txId bank now = .ok out) :
    Inv out.db := by
  obtain ⟨hbm, hnn, hnd, hbd, hdc⟩ := hInv
  unfold execute at h
  split at h
  · exact Except.noConfusion h
  next tx heqT =>
    obtain ⟨htxmem, htxp, -⟩ := getUnique_spec _ _ _ heqT
    rw [byIdInEntryStatuses, decide_eq_true_eq] at htxp
    obtain ⟨htxid, htxst⟩ := htxp
    have htty : tx.ttype = TxnType.withdrawal := by
      cases hty : tx.ttype
      · have hcomp := hdc tx htxmem hty
        rcases htxst with h₁ | h₁ <;> rw [h₁] at hcomp <;>
          exact Status.noConfusion hcomp
      · rfl
    have hctx : ∀ ty pk, contrib ty pk tx = 0 := by
      intro ty pk
      unfold contrib isCompletedOf
      rcases htxst with h₁ | h₁ <;> simp [h₁]
    have hbnd : ∀ tx' : Txn, tx'.id = tx.id →
        (∀ y ∈ updateTxn db.txns tx', y.id < db.nextTxnId) := by
      intro tx' hid y hy
      rcases mem_updateTxn _ _ _ hy with rfl | hy'
      · rw [hid]; exact hbd tx htxmem
      · exact hbd y hy'
    have hdcu : ∀ tx' : Txn, tx'.ttype = tx.ttype →
        (∀ y ∈ updateTxn db.txns tx',
          y.ttype = TxnType.deposit → y.status = Status.completed) := by
      intro tx' hty y hy
      rcases mem_updateTxn _ _ _ hy with rfl | hy'
      · intro hdep
        rw [hty, htty] at hdep
        exact TxnType.noConfusion hdep
      · exact hdc y hy'
    simp only [] at h
    split at h
    · exact Except.noConfusion h
    next wallet heqW =>
      obtain ⟨hwmem, hwp, hwuniq⟩ := getUnique_spec _ _ _ heqW
      rw [byPk, decide_eq_true_eq] at hwp
      split at h
      next hlt =>
        simp only [Except.ok.injEq] at h
        subst h
        dsimp only
        rw [updateTxn_updateTxn]
        rotate_left
        · rfl
        refine inv_mk _ _ _ ?_ hnn ?_ (hbnd _ rfl) (hdcu _ rfl)
        · intro w hw
          rw [completedSum_updateTxn db.txns tx { tx with status := Status.failed, executedAt := some now, thirdPartyResponse := some TPResponse.insufficient } TxnType.deposit w.pk hnd htxmem rfl]
          rw [completedSum_updateTxn db.txns tx { tx with status := Status.failed, executedAt := some now, thirdPartyResponse := some TPResponse.insufficient } TxnType.withdrawal w.pk hnd htxmem rfl]
          rw [hctx, hctx]
          have hc₂ : ∀ ty, contrib ty w.pk
              { tx with status := Status.failed, executedAt := some now, thirdPartyResponse := some TPResponse.insufficient } = 0 := by
            intro ty
            simp [contrib, isCompletedOf]
          rw [hc₂, hc₂]
          have := hbm w hw
          omega
        · rw [updateTxn_map_id]
          exact hnd
      next hge =>
        split at h
        next hsucc =>
          simp only [Except.ok.injEq] at h
          subst h
          dsimp only
          rw [updateTxn_updateTxn]
          rotate_left
          · rfl
          refine inv_mk _ _ _ ?_ ?_ ?_ (hbnd _ rfl) (hdcu _ rfl)
          · intro w' hw'
            obtain ⟨w, hw, hw'eq⟩ := mem_debitBalance _ _ _ _ hw'
            have hold := hbm w hw
            rw [completedSum_updateTxn db.txns tx { tx with status := Status.completed, executedAt := some now, thirdPartyResponse := some (TPResponse.bank bank.payload) } TxnType.deposit w'.pk hnd htxmem rfl]
            rw [completedSum_updateTxn db.txns tx { tx with status := Status.completed, executedAt := some now, thirdPartyResponse := some (TPResponse.bank bank.payload) } TxnType.withdrawal w'.pk hnd htxmem rfl]
            rw [hctx, hctx]
            by_cases hpk : w.pk = wallet.pk
            · have hpk' : w'.pk = w.pk := by rw [hw'eq, if_pos hpk]
              have hbal' : w'.balance = w.balance - tx.amount := by
                rw [hw'eq, if_pos hpk]
              have hpkw : tx.walletPk = w'.pk := by rw [hpk', hpk, hwp]
              have hcd : contrib TxnType.deposit w'.pk
                  { tx with status := Status.completed, executedAt := some now, thirdPartyResponse := some (TPResponse.bank bank.payload) }
                    = 0 := by
                simp [contrib, isCompletedOf, htty]
              have hcw : contrib TxnType.withdrawal w'.pk
                  { tx with status := Status.completed, executedAt := some now, thirdPartyResponse := some (TPResponse.bank bank.payload) }
                    = tx.amount := by
                simp [contrib, isCompletedOf, htty, hpkw]
              rw [hpk', hbal', hcd, hcw] at *
              rw [hpk']
              omega
            · have hpk' : w'.pk = w.pk := by rw [hw'eq, if_neg hpk]
              have hbal' : w'.balance = w.balance := by rw [hw'eq, if_neg hpk]
              have hpkw : ¬ tx.walletPk = w'.pk := by
                rw [hpk', ← hwp]
                exact fun hc => hpk hc.symm
              have hcd : contrib TxnType.deposit w'.pk
                  { tx with status := Status.completed, executedAt := some now, thirdPartyResponse := some (TPResponse.bank bank.payload) }
                    = 0 := by
                simp [contrib, isCompletedOf, htty]
              have hcw : contrib TxnType.withdrawal w'.pk
                  { tx with status := Status.completed, executedAt := some now, thirdPartyResponse := some (TPResponse.bank bank.payload) }
                    = 0 := by
                simp [contrib, isCompletedOf, hpkw]
              rw [hbal', hcd, hcw, hpk']
              omega
          · intro w' hw'
            obtain ⟨w, hw, hw'eq⟩ := mem_debitBalance _ _ _ _ hw'
            by_cases hpk : w.pk = wallet.pk
            · have hww : w = wallet := by
                refine hwuniq w hw ?_
                rw [byPk, decide_eq_true_eq, hpk, hwp]
              have hbal' : w'.balance = w.balance - tx.amount := by
                rw [hw'eq, if_pos hpk]
              rw [hww] at hbal'
              omega
            · have hbal' : w'.balance = w.balance := by rw [hw'eq, if_neg hpk]
              have := hnn w hw
              omega
          · rw [updateTxn_map_id]
            exact hnd
        next hfail =>
          simp only [Except.ok.injEq] at h
          subst h
          dsimp only
          rw [updateTxn_updateTxn]
          rotate_left
          · rfl
          rw [creditBalance_debitBalance]
          refine inv_mk _ _ _ ?_ hnn ?_ (hbnd _ rfl) (hdcu _ rfl)
          · intro w hw
            rw [completedSum_updateTxn db.txns tx { tx with status := Status.failed, executedAt := some now, retryCount := tx.retryCount + 1, thirdPartyResponse := some (TPResponse.bank bank.payload) } TxnType.deposit w.pk hnd htxmem rfl]
            rw [completedSum_updateTxn db.txns tx { tx with status := Status.failed, executedAt := some now, retryCount := tx.retryCount + 1, thirdPartyResponse := some (TPResponse.bank bank.payload) } TxnType.withdrawal w.pk hnd htxmem rfl]
            rw [hctx, hctx]
            have hc₂ : ∀ ty, contrib ty w.pk
                { tx with status := Status.failed, executedAt := some now, retryCount := tx.retryCount + 1, thirdPartyResponse := some (TPResponse.bank bank.payload) }
                  = 0 := by
              intro ty
              simp [contrib, isCompletedOf]
            rw [hc₂, hc₂]
            have := hbm w hw
            omega
          · rw [updateTxn_map_id]
            exact hnd

lemma inv_applyOp (db : DB) (op : Op) (hInv : Inv db) : Inv (applyOp db op) := by
  cases op with
  | depositOp u a k n =>
    cases hres : deposit db u a k n with
    | ok p =>
      obtain ⟨db', t⟩ := p
      simp only [applyOp, hres]
      exact inv_deposit db db' u a k n t hInv hres
    | error e =>
      simp only [applyOp, hres]
      exact hInv
  | scheduleOp u a sf k n =>
    cases hres : schedule db u a sf k n with
    | ok p =>
      obtain ⟨db', t⟩ := p
      simp only [applyOp, hres]
      exact inv_schedule db db' u a sf k n t hInv hres
    | error e =>
      simp only [applyOp, hres]
      exact hInv
  | executeOp i b n =>
    cases hres : execute db i b n with
    | ok o =>
      simp only [applyOp, hres]
      exact inv_execute db i b n o hInv hres
    | error e =>
      simp only [applyOp, hres]
      exact hInv

lemma inv_initDB (ws : List Wallet) (h₀ : ∀ w ∈ ws, w.balance = 0) :
    Inv (initDB ws) := by
  refine ⟨?_, ?_, ?_, ?_, ?_⟩
  · intro w hw
    rw [h₀ w hw]
    rfl
  · intro w hw
    rw [h₀ w hw]
  · exact List.nodup_nil
  · intro t ht
    cases ht
  · intro t ht
    cases ht

lemma inv_run (ws : List Wallet) (ops : List Op)
    (h₀ : ∀ w ∈ ws, w.balance = 0) : Inv (run ws ops) := by
  unfold run
  have hstep : ∀ (l : List Op) (db : DB), Inv db → Inv (l.foldl applyOp db) := by
    intro l
    induction l with
    | nil => intro db hdb; exact hdb
    | cons op rest ih =>
      intro db hdb
      exact ih (applyOp db op) (inv_applyOp db op hdb)
  exact hstep ops (initDB ws) (inv_initDB ws h₀)

/-- Post-state relation for C9: every committed row in PROCESSING status was
already present before the call, i.e. the call itself never commits a
PROCESSING row. -/
def noNewProcessing (dbPre dbPost : DB) : Prop :=
  ∀ y ∈ dbPost.txns, y.status = Status.processing → y ∈ dbPre.txns

/-- Concrete fixture: one wallet holding 100 minor units. -/
def wFix : Wallet := ⟨1, 10, 100⟩

/-- Concrete fixture: a pending withdrawal of 30 against wFix. -/
def txFix : Txn :=
  ⟨0, 1, 30, TxnType.withdrawal, Status.pending, some 5, none, none, 0, none⟩

/-- Concrete fixture database for the execute theorems. -/
def dbFix : DB := ⟨[wFix], [txFix], 1⟩

/-- C1: for a withdrawal transaction in an entry state (Pending or Failed) on
a wallet with sufficient balance, if Execute runs and the bank call returns
non-ok, the committed wallet rows equal their pre-Execute value (the debit and
the compensating credit commit atomically inside the one database
transaction), the transaction is committed as Failed with executed_at set,
retry_count incremented by exactly 1, and third_party_response holding the
bank payload. -/
theorem execute_bank_failure (db : DB) (txId payload : Nat) (now : Int)
    (t : Txn) (w : Wallet) (out : ExecOut)
    (ht : getUnique (byIdInEntryStatuses txId) db.txns = some t)
    (hw : getUnique (byPk t.walletPk) db.wallets = some w)
    (hbal : t.amount ≤ w.balance)
    (hrun : execute db txId ⟨false, payload⟩ now = .ok out) :
    out.db.wallets = db.wallets ∧
    out.db.txns = updateTxn db.txns out.tx ∧
    out.tx.status = Status.failed ∧
    out.tx.executedAt = some now ∧
    out.tx.retryCount = t.retryCount + 1 ∧
    out.tx.thirdPartyResponse = some (TPResponse.bank payload) ∧
    out.tx.amount = t.amount ∧
    out.bankCalled = true := by
  unfold execute at hrun
  split at hrun
  · exact Except.noConfusion hrun
  next tx heqT =>
    have htxeq : tx = t := by
      have h₂ := heqT.symm.trans ht
      injection h₂
    subst htxeq
    simp only [] at hrun
    split at hrun
    · exact Except.noConfusion hrun
    next wallet heqW =>
      have hweq : wallet = w := by
        have h₂ := heqW.symm.trans hw
        injection h₂
      subst hweq
      split at hrun
      next hlt => exact absurd hlt (not_lt.mpr hbal)
      next hge =>
        split at hrun
        next hsucc => exact Bool.noConfusion hsucc
        next hfail =>
          simp only [Except.ok.injEq] at hrun
          subst hrun
          dsimp only
          refine ⟨creditBalance_debitBalance _ _ _, ?_, rfl, rfl, rfl, rfl,
            rfl, rfl⟩
          rw [updateTxn_updateTxn]
          rfl

/-- Result of executing the fixture withdrawal with a failing bank. -/
def outFail : ExecOut :=
  ⟨⟨[wFix], [{ txFix with status := Status.failed, executedAt := some 9, retryCount := 1, thirdPartyResponse := some (TPResponse.bank 42) }], 1⟩,
   { txFix with status := Status.failed, executedAt := some 9, retryCount := 1, thirdPartyResponse := some (TPResponse.bank 42) }, true⟩

/-- Witness for C1 at a concrete input. -/
theorem execute_bank_failure_witness :
    outFail.db.wallets = dbFix.wallets ∧
    outFail.db.txns = updateTxn dbFix.txns outFail.tx ∧
    outFail.tx.status = Status.failed ∧
    outFail.tx.executedAt = some 9 ∧
    outFail.tx.retryCount = txFix.retryCount + 1 ∧
    outFail.tx.thirdPartyResponse = some (TPResponse.bank 42) ∧
    outFail.tx.amount = txFix.amount ∧
    outFail.bankCalled = true :=
  execute_bank_failure dbFix 0 42 9 txFix wFix outFail (by decide) (by decide)
    (by decide) (by rfl)

/-- C2: for a withdrawal transaction in an entry state on a wallet whose
balance is below the amount, Execute commits the transaction as Failed with
executed_at set and third_party_response = the insufficient-balance error,
leaves retry_count and every wallet row unchanged, and never calls the bank
client. -/
theorem execute_insufficient_balance (db : DB) (txId : Nat)
    (bank : BankResult) (now : Int) (t : Txn) (w : Wallet) (out : ExecOut)
    (ht : getUnique (byIdInEntryStatuses txId) db.txns = some t)
    (hw : getUnique (byPk t.walletPk) db.wallets = some w)
    (hbal : w.balance < t.amount)
    (hrun : execute db txId bank now = .ok out) :
    out.db.wallets = db.wallets ∧
    out.db.txns = updateTxn db.txns out.tx ∧
    out.tx.status = Status.failed ∧
    out.tx.executedAt = some now ∧
    out.tx.retryCount = t.retryCount ∧
    out.tx.thirdPartyResponse = some TPResponse.insufficient ∧
    out.bankCalled = false := by
  unfold execute at hrun
  split at hrun
  · exact Except.noConfusion hrun
  next tx heqT =>
    have htxeq : tx = t := by
      have h₂ := heqT.symm.trans ht
      injection h₂
    subst htxeq
    simp only [] at hrun
    split at hrun
    · exact Except.noConfusion hrun
    next wallet heqW =>
      have hweq : wallet = w := by
        have h₂ := heqW.symm.trans hw
        injection h₂
      subst hweq
      split at hrun
      next hlt =>
        simp only [Except.ok.injEq] at hrun
        subst hrun
        dsimp only
        refine ⟨rfl, ?_, rfl, rfl, rfl, rfl, rfl⟩
        rw [updateTxn_updateTxn]
        rfl
      next hge => exact absurd hbal hge

/-- Fixture wallet that cannot cover the fixture withdrawal. -/
def wPoor : Wallet := ⟨1, 10, 10⟩

/-- Fixture database with insufficient balance. -/
def dbPoor : DB := ⟨[wPoor], [txFix], 1⟩

/-- Result of executing the fixture withdrawal against dbPoor. -/
def outInsuf : ExecOut :=
  ⟨⟨[wPoor], [{ txFix with status := Status.failed, executedAt := some 9, thirdPartyResponse := some TPResponse.insufficient }], 1⟩,
   { txFix with status := Status.failed, executedAt := some 9, thirdPartyResponse := some TPResponse.insufficient }, false⟩

/-- Witness for C2 at a concrete input. -/
theorem execute_insufficient_balance_witness :
    outInsuf.db.wallets = dbPoor.wallets ∧
    outInsuf.db.txns = updateTxn dbPoor.txns outInsuf.tx ∧
    outInsuf.tx.status = Status.failed ∧
    outInsuf.tx.executedAt = some 9 ∧
    outInsuf.tx.retryCount = txFix.retryCount ∧
    outInsuf.tx.thirdPartyResponse = some TPResponse.insufficient ∧
    outInsuf.bankCalled = false :=
  execute_insufficient_balance dbPoor 0 ⟨true, 42⟩ 9 txFix wPoor outInsuf
    (by decide) (by decide) (by decide) (by rfl)

/-- C8: for a withdrawal transaction in an entry state on a wallet with
sufficient balance, if Execute runs and the bank result is ok, the commit
debits exactly the amount from the wallet row, and the transaction is
committed as Completed with executed_at set and third_party_response equal to
the bank payload. -/
theorem execute_bank_success (db : DB) (txId payload : Nat) (now : Int)
    (t : Txn) (w : Wallet) (out : ExecOut)
    (ht : getUnique (byIdInEntryStatuses txId) db.txns = some t)
    (hw : getUnique (byPk t.walletPk) db.wallets = some w)
    (hbal : t.amount ≤ w.balance)
    (hrun : execute db txId ⟨true, payload⟩ now = .ok out) :
    out.db.wallets = debitBalance db.wallets t.walletPk t.amount ∧
    out.db.txns = updateTxn db.txns out.tx ∧
    out.tx.status = Status.completed ∧
    out.tx.executedAt = some now ∧
    out.tx.thirdPartyResponse = some (TPResponse.bank payload) ∧
    out.tx.amount = t.amount ∧
    out.tx.retryCount = t.retryCount ∧
    out.bankCalled = true := by
  obtain ⟨-, hwp, -⟩ := getUnique_spec _ _ _ hw
  rw [byPk, decide_eq_true_eq] at hwp
  unfold execute at hrun
  split at hrun
  · exact Except.noConfusion hrun
  next tx heqT =>
    have htxeq : tx = t := by
      have h₂ := heqT.symm.trans ht
      injection h₂
    subst htxeq
    simp only [] at hrun
    split at hrun
    · exact Except.noConfusion hrun
    next wallet heqW =>
      have hweq : wallet = w := by
        have h₂ := heqW.symm.trans hw
        injection h₂
      subst hweq
      split at hrun
      next hlt => exact absurd hlt (not_lt.mpr hbal)
      next hge =>
        split at hrun
        next hsucc =>
          simp only [Except.ok.injEq] at hrun
          subst hrun
          dsimp only
          refine ⟨?_, ?_, rfl, rfl, rfl, rfl, rfl, rfl⟩
          · rw [hwp]
          · rw [updateTxn_updateTxn]
            rfl
        next hfail => exact absurd (by trivial) hfail

/-- Result of executing the fixture withdrawal with a succeeding bank. -/
def outOk : ExecOut :=
  ⟨⟨[⟨1, 10, 70⟩], [{ txFix with status := Status.completed, executedAt := some 9, thirdPartyResponse := some (TPResponse.bank 42) }], 1⟩,
   { txFix with status := Status.completed, executedAt := some 9, thirdPartyResponse := some (TPResponse.bank 42) }, true⟩

/-- Witness for C8 at a concrete input. -/
theorem execute_bank_success_witness :
    outOk.db.wallets = debitBalance dbFix.wallets txFix.walletPk txFix.amount ∧
    outOk.db.txns = updateTxn dbFix.txns outOk.tx ∧
    outOk.tx.status = Status.completed ∧
    outOk.tx.executedAt = some 9 ∧
    outOk.tx.thirdPartyResponse = some (TPResponse.bank 42) ∧
    outOk.tx.amount = txFix.amount ∧
    outOk.tx.retryCount = txFix.retryCount ∧
    outOk.bankCalled = true :=
  execute_bank_success dbFix 0 42 9 txFix wFix outOk (by decide) (by decide)
    (by decide) (by rfl)

/-- C9: every state committed by Execute leaves the returned transaction in
Completed or Failed status, and never commits a new PROCESSING row: the whole
body runs in one database transaction, so the intermediate PROCESSING write is
either overwritten before the commit or rolled back with the transaction. -/
theorem execute_commits_only_terminal (db : DB) (txId : Nat)
    (bank : BankResult) (now : Int) (out : ExecOut)
    (hrun : execute db txId bank now = .ok out) :
    (out.tx.status = Status.completed ∨ out.tx.status = Status.failed) ∧
    noNewProcessing db out.db := by
  unfold execute at hrun
  split at hrun
  · exact Except.noConfusion hrun
  next tx heqT =>
    simp only [] at hrun
    split at hrun
    · exact Except.noConfusion hrun
    next wallet heqW =>
      split at hrun
      next hlt =>
        simp only [Except.ok.injEq] at hrun
        subst hrun
        dsimp only
        refine ⟨Or.inr rfl, ?_⟩
        intro y hy
        rw [updateTxn_updateTxn db.txns { tx with status := Status.processing } { tx with status := Status.failed, executedAt := some now, thirdPartyResponse := some TPResponse.insufficient } rfl] at hy
        rcases mem_updateTxn _ _ _ hy with rfl | hy'
        · intro hproc
          have hproc' : Status.failed = Status.processing := hproc
          exact Status.noConfusion hproc'
        · intro _
          exact hy'
      next hge =>
        split at hrun
        next hsucc =>
          simp only [Except.ok.injEq] at hrun
          subst hrun
          dsimp only
          refine ⟨Or.inl rfl, ?_⟩
          intro y hy
          rw [updateTxn_updateTxn db.txns { tx with status := Status.processing } { tx with status := Status.completed, executedAt := some now, thirdPartyResponse := some (TPResponse.bank bank.payload) } rfl] at hy
          rcases mem_updateTxn _ _ _ hy with rfl | hy'
          · intro hproc
            have hproc' : Status.completed = Status.processing := hproc
            exact Status.noConfusion hproc'
          · intro _
            exact hy'
        next hfail =>
          simp only [Except.ok.injEq] at hrun
          subst hrun
          dsimp only
          refine ⟨Or.inr rfl, ?_⟩
          intro y hy
          rw [updateTxn_updateTxn db.txns { tx with status := Status.processing } { tx with status := Status.failed, executedAt := some now, retryCount := tx.retryCount + 1, thirdPartyResponse := some (TPResponse.bank bank.payload) } rfl] at hy
          rcases mem_updateTxn _ _ _ hy with rfl | hy'
          · intro hproc
            have hproc' : Status.failed = Status.processing := hproc
            exact Status.noConfusion hproc'
          · intro _
            exact hy'

/-- Witness for C9 at a concrete input. -/
theorem execute_commits_only_terminal_witness :
    (outOk.tx.status = Status.completed ∨ outOk.tx.status = Status.failed) ∧
    noNewProcessing dbFix outOk.db :=
  execute_commits_only_terminal dbFix 0 ⟨true, 42⟩ 9 outOk (by rfl)

/-- C3: for every wallet, at every commit boundary reachable by any sequence
of Deposit, Schedule and Execute calls starting from freshly created wallets
(balance 0, no transactions), the balance equals the sum of the wallet's
Completed Deposit amounts minus the sum of its Completed Withdrawal
amounts. -/
theorem ledger_balance_invariant (ws : List Wallet) (ops : List Op)
    (w : Wallet) (h₀ : ∀ x ∈ ws, x.balance = 0)
    (hw : w ∈ (run ws ops).wallets) :
    w.balance = completedSum (run ws ops).txns TxnType.deposit w.pk
      - completedSum (run ws ops).txns TxnType.withdrawal w.pk :=
  (inv_run ws ops h₀).1 w hw

/-- Concrete operation sequence for the reachability witnesses: a deposit of
100, a scheduled withdrawal of 30, and its execution with a succeeding
bank. -/
def opsFix : List Op :=
  [Op.depositOp 10 100 none 0, Op.scheduleOp 10 30 5 none 0,
   Op.executeOp 1 ⟨true, 42⟩ 9]

/-- Witness for C3 at a concrete input. -/
theorem ledger_balance_invariant_witness :
    (Wallet.mk 1 10 70).balance =
      completedSum (run [Wallet.mk 1 10 0] opsFix).txns TxnType.deposit
        (Wallet.mk 1 10 70).pk
      - completedSum (run [Wallet.mk 1 10 0] opsFix).txns TxnType.withdrawal
        (Wallet.mk 1 10 70).pk :=
  ledger_balance_invariant [Wallet.mk 1 10 0] opsFix (Wallet.mk 1 10 70)
    (by decide) (by decide)

/-- C4: every committed state reachable via Deposit, Schedule and Execute from
freshly created wallets keeps every wallet balance non-negative; Deposit only
adds a positive amount, Schedule never touches the balance, and Execute debits
only after the balance check under the wallet lock. -/
theorem wallet_balance_nonneg (ws : List Wallet) (ops : List Op) (w : Wallet)
    (h₀ : ∀ x ∈ ws, x.balance = 0) (hw : w ∈ (run ws ops).wallets) :
    0 ≤ w.balance :=
  (inv_run ws ops h₀).2.1 w hw

/-- Concrete operation sequence exercising the insufficient-balance and
bank-failure paths for the C4 witness. -/
def opsFix₂ : List Op :=
  [Op.depositOp 10 100 none 0, Op.scheduleOp 10 130 5 none 0,
   Op.executeOp 1 ⟨true, 42⟩ 9, Op.scheduleOp 10 60 15 none 10,
   Op.executeOp 2 ⟨false, 7⟩ 19]

/-- Witness for C4 at a concrete input. -/
theorem wallet_balance_nonneg_witness :
    (0 : Int) ≤ (Wallet.mk 1 10 100).balance :=
  wallet_balance_nonneg [Wallet.mk 1 10 0] opsFix₂ (Wallet.mk 1 10 100)
    (by decide) (by decide)

/-- C5 (amended): Execute treats a transaction as ineligible only by status:
when every row with the requested id is Completed or Processing (or no row has
that id), Execute raises DoesNotExist, so nothing is committed.  A Failed row
is an entry state regardless of retry_count; the retry_count < max_retries
gate exists only in the retry dispatcher's query. -/
theorem execute_terminal_guard (db : DB) (txId : Nat) (bank : BankResult)
    (now : Int)
    (h : ∀ t ∈ db.txns, t.id = txId →
      t.status = Status.completed ∨ t.status = Status.processing) :
    execute db txId bank now = .error .notFound := by
  have hg : getUnique (byIdInEntryStatuses txId) db.txns = none := by
    unfold getUnique
    have hfil : db.txns.filter (byIdInEntryStatuses txId) = [] := by
      rw [List.filter_eq_nil_iff]
      intro t ht
      rw [byIdInEntryStatuses]
      simp only [decide_eq_true_eq, not_and]
      intro hid
      rcases h t ht hid with h₁ | h₁ <;> simp [h₁]
    rw [hfil]
  unfold execute
  rw [hg]

/-- Fixture for the C5 counterexample: a Failed withdrawal already at
MAX_RETRIES retries, i.e. terminal per the spec. -/
def txMaxed : Txn :=
  ⟨0, 1, 30, TxnType.withdrawal, Status.failed, some 5, some 6,
   some (TPResponse.bank 9), MAX_RETRIES, none⟩

/-- Fixture database holding txMaxed. -/
def dbMaxed : DB := ⟨[wFix], [txMaxed], 1⟩

/-- Result of executing txMaxed with a succeeding bank. -/
def outMaxed : ExecOut :=
  ⟨⟨[⟨1, 10, 70⟩], [{ txMaxed with status := Status.completed, executedAt := some 9, thirdPartyResponse := some (TPResponse.bank 5) }], 1⟩,
   { txMaxed with status := Status.completed, executedAt := some 9, thirdPartyResponse := some (TPResponse.bank 5) }, true⟩

/-- Counterexample to C5 as stated: a Failed transaction at retry_count =
MAX_RETRIES is invisible to the retry dispatcher, yet Execute accepts it,
debits the wallet and completes it instead of returning NotFound with no
mutation. -/
theorem execute_terminal_claim_counterexample :
    txMaxed.status = Status.failed ∧
    txMaxed.retryCount = MAX_RETRIES ∧
    getFailedRetryableWithdrawals dbMaxed.txns MAX_RETRIES = [] ∧
    execute dbMaxed 0 ⟨true, 5⟩ 9 = Except.ok outMaxed ∧
    outMaxed.tx.status = Status.completed ∧
    outMaxed.db.wallets = [⟨1, 10, 70⟩] := by
  refine ⟨rfl, rfl, rfl, by rfl, rfl, rfl⟩

/-- Fixture terminal database for the C5 witness: one Completed deposit. -/
def dbDone : DB :=
  ⟨[wFix], [⟨0, 1, 30, TxnType.withdrawal, Status.completed, some 5, some 6,
    some (TPResponse.bank 9), 0, none⟩], 1⟩

/-- Witness for the amended C5 at a concrete input. -/
theorem execute_terminal_guard_witness :
    execute dbDone 0 ⟨true, 5⟩ 9 = Except.error Err.notFound :=
  execute_terminal_guard dbDone 0 ⟨true, 5⟩ 9 (by decide)

/-- C6: a successful Deposit with an idempotency key leaves a stored
transaction carrying that key, and replaying the same Deposit returns that
stored transaction unchanged with zero mutations, so
Deposit(W,a,k); Deposit(W,a,k) is equivalent to a single Deposit(W,a,k) in the
committed state and the returned transaction. -/
theorem deposit_idempotency (db db₁ : DB) (u : Nat) (a : Int) (k : Nat)
    (now now' : Int) (t : Txn)
    (h : deposit db u a (some k) now = .ok (db₁, t)) :
    t.idempotencyKey = some k ∧
    db₁.txns.find? (byKey k) = some t ∧
    deposit db₁ u a (some k) now' = .ok (db₁, t) := by
  unfold deposit at h
  split at h
  · exact Except.noConfusion h
  next ha =>
    simp only [Option.bind] at h
    split at h
    next existing heq =>
      simp only [Except.ok.injEq, Prod.mk.injEq] at h
      obtain ⟨rfl, rfl⟩ := h
      have hkey : byKey k existing = true := List.find?_some heq
      refine ⟨?_, heq, ?_⟩
      · rw [byKey, decide_eq_true_eq] at hkey
        exact hkey
      · unfold deposit
        rw [if_neg ha]
        simp only [Option.bind]
        rw [heq]
    next hmiss =>
      split at h
      · exact Except.noConfusion h
      next wallet heqW =>
        unfold createTxn at h
        split at h
        · exact Except.noConfusion h
        next hktaken =>
          simp only [Except.ok.injEq, Prod.mk.injEq] at h
          obtain ⟨rfl, rfl⟩ := h
          have hfind : (Txn.mk db.nextTxnId wallet.pk a TxnType.deposit
              Status.completed none (some now) none 0 (some k) :: db.txns).find?
                (byKey k)
              = some (Txn.mk db.nextTxnId wallet.pk a TxnType.deposit
                Status.completed none (some now) none 0 (some k)) := by
            rw [List.find?_cons_of_pos]
            rw [byKey, decide_eq_true_eq]
          refine ⟨rfl, hfind, ?_⟩
          unfold deposit
          rw [if_neg ha]
          simp only [Option.bind]
          rw [hfind]

/-- Fixture: empty-ledger database for the C6 witness. -/
def dbKey : DB := ⟨[⟨1, 10, 0⟩], [], 0⟩

/-- The deposit row created by the first keyed call on dbKey. -/
def txKey : Txn :=
  ⟨0, 1, 5, TxnType.deposit, Status.completed, none, some 0, none, 0, some 3⟩

/-- Committed state after the first keyed deposit on dbKey. -/
def dbKey₁ : DB := ⟨[⟨1, 10, 5⟩], [txKey], 1⟩

/-- Witness for C6 at a concrete input. -/
theorem deposit_idempotency_witness :
    txKey.idempotencyKey = some 3 ∧
    dbKey₁.txns.find? (byKey 3) = some txKey ∧
    deposit dbKey₁ 10 5 (some 3) 1 = Except.ok (dbKey₁, txKey) :=
  deposit_idempotency dbKey dbKey₁ 10 5 3 0 1 txKey (by rfl)

/-- C7 (amended): when a concurrent writer commits the same idempotency key
between the pre-lock lookup and the insert, the unique violation is not
caught: Deposit surfaces the error, its own writes (the balance credit) are
rolled back with its transaction, and the concurrent writer's rows stay
committed; there is no retry of the lookup and the winner is not returned. -/
theorem deposit_unique_violation_surfaces (db : DB) (cs : List Txn) (u : Nat)
    (a : Int) (k : Nat) (now : Int) (w : Wallet)
    (ha : 1 ≤ a)
    (hmiss : db.txns.find? (byKey k) = none)
    (htaken : (cs ++ db.txns).any (byKey k) = true)
    (hw : getUnique (byUuid u) db.wallets = some w) :
    depositRaced db cs u a (some k) now
      = ({ db with txns := cs ++ db.txns }, .error .conflict) := by
  unfold depositRaced
  rw [if_neg (show ¬ a ≤ 0 by omega)]
  simp only [Option.bind]
  rw [hmiss, hw]
  unfold createTxn
  simp only [keyTaken]
  rw [htaken]
  simp only [if_true]

/-- Fixture wallet for the C7 race. -/
def wZero : Wallet := ⟨1, 10, 0⟩

/-- Fixture database for the C7 race: no transactions yet. -/
def dbRace : DB := ⟨[wZero], [], 0⟩

/-- The transaction the concurrent writer commits with key 7. -/
def raceWinner : Txn :=
  ⟨50, 1, 5, TxnType.deposit, Status.completed, none, some 0, none, 0, some 7⟩

/-- Counterexample to C7 as stated: with the winner committed concurrently,
the source's deposit surfaces the unique violation instead of re-running the
lookup and returning the winner; its own balance credit is rolled back. -/
theorem deposit_unique_violation_counterexample :
    (depositRaced dbRace [raceWinner] 10 5 (some 7) 1).2
      = Except.error Err.conflict ∧
    (depositRaced dbRace [raceWinner] 10 5 (some 7) 1).2
      ≠ Except.ok raceWinner ∧
    (depositRaced dbRace [raceWinner] 10 5 (some 7) 1).1
      = ⟨[wZero], [raceWinner], 0⟩ := by
  refine ⟨by rfl, ?_, by rfl⟩
  intro hcontra
  have : Except.error Err.conflict = Except.ok raceWinner := by
    rw [← hcontra]
    rfl
  exact Except.noConfusion this

/-- Witness for the amended C7 at a concrete input. -/
theorem deposit_unique_violation_surfaces_witness :
    depositRaced dbRace [raceWinner] 10 5 (some 7) 1
      = ({ dbRace with txns := [raceWinner] ++ dbRace.txns },
         .error .conflict) :=
  deposit_unique_violation_surfaces dbRace [raceWinner] 10 5 7 1 wZero
    (by decide) (by decide) (by decide) (by decide)

/-- C10: argument validation precedes the idempotency lookup in both Deposit
and Schedule: a non-positive amount (or, for Schedule, a scheduled_for not in
the future) raises InvalidArgument for every database state, in particular
even when a transaction with the supplied idempotency key already exists. -/
theorem validation_precedes_idempotency (db : DB) (u : Nat) (a a' : Int)
    (k : Nat) (now sf : Int) (ha : a ≤ 0) (ha' : 1 ≤ a') (hsf : sf ≤ now) :
    deposit db u a (some k) now = .error .invalidArgument ∧
    schedule db u a sf (some k) now = .error .invalidArgument ∧
    schedule db u a' sf (some k) now = .error .invalidArgument := by
  refine ⟨?_, ?_, ?_⟩
  · unfold deposit
    rw [if_pos ha]
  · unfold schedule
    rw [if_pos ha]
  · unfold schedule
    rw [if_neg (show ¬ a' ≤ 0 by omega), if_pos hsf]

/-- Fixture for the C10 witness: the idempotency key 3 is already stored. -/
def dbVal : DB := ⟨[⟨1, 10, 5⟩], [txKey], 1⟩

/-- Witness for C10 at a concrete input where the key already exists. -/
theorem validation_precedes_idempotency_witness :
    deposit dbVal 10 0 (some 3) 0 = Except.error Err.invalidArgument ∧
    schedule dbVal 10 0 0 (some 3) 0 = Except.error Err.invalidArgument ∧
    schedule dbVal 10 1 0 (some 3) 0 = Except.error Err.invalidArgument :=
  validation_precedes_idempotency dbVal 10 0 1 3 0 0 (by decide) (by decide)
    (by decide)

end WalletRepo
